import Mathlib

/-!
Verification of the tiered recency-storage simulation (carpenter.cpp).

The embedding mirrors the C++ source: a Cabinet is a deque of items with a
uint16_t capacity field (the int64 constructor argument is reduced mod 2^16,
exactly as the C++ narrowing conversion does), and the WorkShop holds the
outside cabinet, the workbench and the list of tier cabinets.  Machine
integers (int64_t items) are modelled as Int; all values appearing in the
program stay within int64 range, and no arithmetic on items is performed,
so no wrap-around modelling is needed for items.
-/

/-- Item models the int64_t item tokens. -/
abbrev Item := Int

/-- kSentinelItem models std numeric_limits max for int64_t, 2^63 - 1. -/
def kSentinelItem : Item := 9223372036854775807

/-- Result models the C++ Result struct: a cabinet number plus a status
string, where cabinet_nr equal to kSentinelItem marks an invalid number. -/
structure Result where
  cabinet_nr : Int
  status : String
  deriving DecidableEq, Repr

/-- Result (int64_t nr) constructor: status left empty. -/
def Result.ofNr (nr : Int) : Result := ⟨nr, ""⟩

/-- Result (const std string) constructor: cabinet_nr set to the sentinel. -/
def Result.ofStatus (s : String) : Result := ⟨kSentinelItem, s⟩

/-- Cabinet models the C++ Cabinet class: mSize is the uint16_t capacity,
mStorage the deque with the front at the head of the list. -/
structure Cabinet where
  mSize : Nat
  mStorage : List Item
  deriving DecidableEq, Repr

/-- Cabinet.init models the constructor Cabinet(int64_t size): the int64
argument narrows to uint16_t, i.e. is taken mod 2^16 = 65536. -/
def Cabinet.init (size : Int) : Cabinet := ⟨(size % 65536).toNat, []⟩

/-- Cabinet.hasSpace models hasSpace(): storage size strictly below mSize. -/
def Cabinet.hasSpace (c : Cabinet) : Bool := c.mStorage.length < c.mSize

/-- Cabinet.addItem models addItem: push the item at the front if there is
space and report kSentinelItem (no eviction); otherwise pop the back entry,
push the item at the front, and report the popped entry. -/
def Cabinet.addItem (c : Cabinet) (item : Item) : Item × Cabinet :=
  if c.hasSpace then
    (kSentinelItem, ⟨c.mSize, item :: c.mStorage⟩)
  else
    (c.mStorage.getLastD kSentinelItem, ⟨c.mSize, item :: c.mStorage.dropLast⟩)

/-- Cabinet.popItem models find followed by pop at the returned iterator:
erase the first occurrence of the item. -/
def Cabinet.popItem (c : Cabinet) (item : Item) : Cabinet :=
  ⟨c.mSize, c.mStorage.erase item⟩

/-- Cabinet.popBack models pop_back: remove and return the back entry.
The C++ code asserts non-emptiness; on the (unreached) empty storage the
model returns the sentinel. -/
def Cabinet.popBack (c : Cabinet) : Item × Cabinet :=
  (c.mStorage.getLastD kSentinelItem, ⟨c.mSize, c.mStorage.dropLast⟩)

/-- WorkShop models the C++ WorkShop class. -/
structure WorkShop where
  mOutside : Cabinet
  mWorkbench : Cabinet
  mCabinets : List Cabinet
  deriving DecidableEq, Repr

/-- WorkShop.init models the WorkShop constructor: the outside cabinet is
built with size kSentinelItem (which the uint16_t field truncates), the
workbench with size 1, and one cabinet per configured size. -/
def WorkShop.init (cabinetSizes : List Int) : WorkShop :=
  ⟨Cabinet.init kSentinelItem, Cabinet.init 1, cabinetSizes.map Cabinet.init⟩

/-- cascadeLoop models the for-loop of putInCabinet: walk the cabinets,
carrying the current item; each addItem either evicts (carry on with the
evicted entry) or absorbs, returning kSentinelItem, which breaks the loop.
The result is the updated cabinet list, the final value of the mutable
variable item, and the final value of the mutable variable extraItem. -/
def cascadeLoop : List Cabinet → Item → Item → List Cabinet × Item × Item
  | [], item, extra => ([], item, extra)
  | c :: rest, item, _ =>
    let p := c.addItem item
    if p.1 ≠ kSentinelItem then
      let q := cascadeLoop rest p.1 p.1
      (p.2 :: q.1, q.2.1, q.2.2)
    else
      (p.2 :: rest, item, p.1)

/-- WorkShop.putInCabinet models putInCabinet: run the cascade loop and, if
the final item variable differs from the sentinel, push the final extraItem
variable (not the item variable) into the outside cabinet. -/
def WorkShop.putInCabinet (w : WorkShop) (item : Item) : WorkShop :=
  let r := cascadeLoop w.mCabinets item kSentinelItem
  if r.2.1 ≠ kSentinelItem then
    ⟨(w.mOutside.addItem r.2.2).2, w.mWorkbench, r.1⟩
  else
    ⟨w.mOutside, w.mWorkbench, r.1⟩

/-- WorkShop.drainWorkbench models the first block of workOn: if the
workbench is non-empty, pop its entry and run putInCabinet on it. -/
def WorkShop.drainWorkbench (w : WorkShop) : WorkShop :=
  if w.mWorkbench.mStorage.isEmpty then w
  else
    let p := w.mWorkbench.popBack
    WorkShop.putInCabinet ⟨w.mOutside, p.2, w.mCabinets⟩ p.1

/-- findAndRemove models the cabinet search loop of workOn: scan the
cabinets in order, and in the first cabinet containing the item erase the
item, reporting the 0-based cabinet index and the updated cabinet list. -/
def findAndRemove : List Cabinet → Item → Option (Nat × List Cabinet)
  | [], _ => none
  | c :: rest, item =>
    if item ∈ c.mStorage then
      some (0, c.popItem item :: rest)
    else
      match findAndRemove rest item with
      | some q => some (q.1 + 1, c :: q.2)
      | none => none

/-- WorkShop.workOn models workOn: drain the workbench, then look the item
up outside first, then in the cabinets in order; remove it from where it
was found, put it on the workbench, and report OUTSIDE, the 1-based cabinet
number, or NEW. -/
def WorkShop.workOn (w : WorkShop) (current_item : Item) : Result × WorkShop :=
  let w1 := w.drainWorkbench
  if current_item ∈ w1.mOutside.mStorage then
    (Result.ofStatus "OUTSIDE",
      ⟨w1.mOutside.popItem current_item,
       (w1.mWorkbench.addItem current_item).2, w1.mCabinets⟩)
  else
    match findAndRemove w1.mCabinets current_item with
    | some q =>
      (Result.ofNr ((q.1 : Int) + 1),
        ⟨w1.mOutside, (w1.mWorkbench.addItem current_item).2, q.2⟩)
    | none =>
      (Result.ofStatus "NEW",
        ⟨w1.mOutside, (w1.mWorkbench.addItem current_item).2, w1.mCabinets⟩)

/-- runItems processes a list of items in order, collecting one Result per
item, as the main loop of the program does. -/
def runItems : WorkShop → List Item → List Result × WorkShop
  | w, [] => ([], w)
  | w, i :: rest =>
    let p := w.workOn i
    let q := runItems p.2 rest
    (p.1 :: q.1, q.2)

/-- Provenance is the spec-level outcome vocabulary: New, Overflow, or a
1-based tier index. -/
inductive Provenance where
  | New : Provenance
  | Overflow : Provenance
  | Tier : Int → Provenance
  deriving DecidableEq, Repr

/-- Result.provenance reads a Result in the spec vocabulary: status NEW is
New, status OUTSIDE is Overflow, and otherwise the cabinet number is a
tier index. -/
def Result.provenance (r : Result) : Provenance :=
  if r.status = "NEW" then Provenance.New
  else if r.status = "OUTSIDE" then Provenance.Overflow
  else Provenance.Tier r.cabinet_nr

/-- specLocate follows the spec's words for the lookup of process (search
order: overflow store first, then tiers in ascending index order, stop at
first match; provenance Overflow, Tier of the 1-based index, or New).  It
is the spec-side definition a refinement theorem compares workOn against. -/
def specLocate (ov : List Item) (tiers : List (List Item)) (item : Item) : Provenance :=
  if item ∈ ov then Provenance.Overflow
  else
    match tiers.findIdx? (fun t => decide (item ∈ t)) with
    | some k => Provenance.Tier ((k : Int) + 1)
    | none => Provenance.New

/-- specRemove follows the spec's words for the relocation of process:
remove the item from the store it was located in (overflow first, then the
first tier containing it), leaving every other store unchanged. -/
def specRemove (ov : List Item) (tiers : List (List Item)) (item : Item) :
    List Item × List (List Item) :=
  if item ∈ ov then (ov.erase item, tiers)
  else
    match tiers.findIdx? (fun t => decide (item ∈ t)) with
    | some k => (ov, tiers.set k ((tiers.getD k []).erase item))
    | none => (ov, tiers)

/-- insertAll folds addItem over a list of items, oldest first. -/
def insertAll (c : Cabinet) (items : List Item) : Cabinet :=
  items.foldl (fun d i => (d.addItem i).2) c

/-- CabOp is the vocabulary of mutating cabinet operations: insert via
addItem, remove a found item via find and pop, remove the oldest entry via
pop_back. -/
inductive CabOp where
  | insert : Item → CabOp
  | removeFound : Item → CabOp
  | removeOldest : CabOp
  deriving DecidableEq, Repr

/-- applyOp runs one cabinet operation. -/
def applyOp (c : Cabinet) : CabOp → Cabinet
  | CabOp.insert i => (c.addItem i).2
  | CabOp.removeFound i => c.popItem i
  | CabOp.removeOldest => c.popBack.2

/-- applyOps runs a sequence of cabinet operations in order. -/
def applyOps (c : Cabinet) (ops : List CabOp) : Cabinet := ops.foldl applyOp c

/-- itemFree states that an item value occurs in none of the stores of a
workshop. -/
def itemFree (x : Item) (w : WorkShop) : Prop :=
  x ∉ w.mOutside.mStorage ∧ x ∉ w.mWorkbench.mStorage ∧ ∀ c ∈ w.mCabinets, x ∉ c.mStorage

/-- descList n is the item list n, n-1, ..., 1. -/
def descList : Nat → List Int
  | 0 => []
  | n + 1 => ((n : Int) + 1) :: descList n

/-- natItems n is the item sequence 1, 2, ..., n in processing order. -/
def natItems (n : Nat) : List Int := (List.range n).map (fun k : Nat => ((k : Int) + 1))

/-- midState m is the workshop state reached from the one-tier workshop
after processing the items 1, ..., m + 2: the workbench holds m + 2, the
tier holds m + 1, and the outside store holds m, ..., 1 then the sentinel
that the very first drain deposited. -/
def midState (m : Nat) : WorkShop :=
  ⟨⟨65535, descList m ++ [kSentinelItem]⟩, ⟨1, [(m : Int) + 2]⟩, [⟨1, [(m : Int) + 1]⟩]⟩

/-! Helper lemmas about the cabinet operations. -/

/-- Filling an empty-enough cabinet leaves the inserted items in reverse
order on top of the old storage, with no eviction. -/
theorem insertAll_storage (L : List Item) :
    ∀ c : Cabinet, c.mStorage.length + L.length ≤ c.mSize →
      (insertAll c L).mSize = c.mSize ∧
        (insertAll c L).mStorage = L.reverse ++ c.mStorage := by
  induction L with
  | nil => intro c _; exact ⟨rfl, by simp [insertAll]⟩
  | cons i L ih =>
    intro c hle
    have hsp : c.hasSpace = true := by
      simp only [Cabinet.hasSpace, decide_eq_true_eq]
      simp only [List.length_cons] at hle
      omega
    have hstep : insertAll c (i :: L) = insertAll ⟨c.mSize, i :: c.mStorage⟩ L := by
      simp [insertAll, Cabinet.addItem, hsp]
    have hle2 : (⟨c.mSize, i :: c.mStorage⟩ : Cabinet).mStorage.length + L.length ≤
        (⟨c.mSize, i :: c.mStorage⟩ : Cabinet).mSize := by
      simp only [List.length_cons]
      simp only [List.length_cons] at hle
      omega
    obtain ⟨h1, h2⟩ := ih ⟨c.mSize, i :: c.mStorage⟩ hle2
    rw [hstep]
    refine ⟨h1, ?_⟩
    rw [h2]
    simp

/-- applyOp never grows a cabinet beyond its capacity (capacity at least
one), and never changes the capacity. -/
theorem applyOp_length (c : Cabinet) (op : CabOp) (hcap : 1 ≤ c.mSize)
    (hlen : c.mStorage.length ≤ c.mSize) :
    (applyOp c op).mSize = c.mSize ∧ (applyOp c op).mStorage.length ≤ c.mSize := by
  cases op with
  | insert i =>
    by_cases hsp : c.hasSpace = true
    · have : c.mStorage.length < c.mSize := by
        simpa [Cabinet.hasSpace] using hsp
      constructor
      · simp [applyOp, Cabinet.addItem, hsp]
      · simp only [applyOp, Cabinet.addItem, hsp, if_true]
        simp only [List.length_cons]
        omega
    · have hfull : ¬ c.mStorage.length < c.mSize := by
        simpa [Cabinet.hasSpace] using hsp
      have hne : c.mStorage ≠ [] := by
        intro hnil
        rw [hnil] at hfull
        simp at hfull
        omega
      constructor
      · simp [applyOp, Cabinet.addItem, hsp]
      · simp only [applyOp, Cabinet.addItem, hsp, if_false, Bool.false_eq_true]
        simp only [List.length_cons, List.length_dropLast]
        have : 1 ≤ c.mStorage.length := List.length_pos.mpr hne
        omega
  | removeFound i =>
    refine ⟨rfl, ?_⟩
    simp only [applyOp, Cabinet.popItem]
    calc (c.mStorage.erase i).length ≤ c.mStorage.length := (c.mStorage.erase_sublist i).length_le
      _ ≤ c.mSize := hlen
  | removeOldest =>
    refine ⟨rfl, ?_⟩
    simp only [applyOp, Cabinet.popBack, List.length_dropLast]
    omega

/-- applyOps preserves the capacity bound invariant. -/
theorem applyOps_length (ops : List CabOp) :
    ∀ c : Cabinet, 1 ≤ c.mSize → c.mStorage.length ≤ c.mSize →
      (applyOps c ops).mSize = c.mSize ∧ (applyOps c ops).mStorage.length ≤ c.mSize := by
  induction ops with
  | nil => intro c _ hlen; exact ⟨rfl, hlen⟩
  | cons op ops ih =>
    intro c hcap hlen
    obtain ⟨h1, h2⟩ := applyOp_length c op hcap hlen
    have hstep : applyOps c (op :: ops) = applyOps (applyOp c op) ops := rfl
    obtain ⟨h3, h4⟩ := ih (applyOp c op) (h1 ▸ hcap) (h1 ▸ h2)
    rw [hstep]
    exact ⟨h3.trans h1, h1 ▸ h4⟩

/-- The last entry of a reversed list is the first entry of the list. -/
theorem getLastD_reverse (l : List Item) (d : Item) :
    l.reverse.getLastD d = l.headD d := by
  cases l <;> simp [List.getLastD_eq_getLast?, List.getLast?_reverse]

/-! Claim theorems. -/

/-- C7: with one tier of capacity 1, processing 10, 20, 10, 30 yields the
provenance sequence New, New, Overflow, New. -/
theorem claim_c7 :
    (runItems (WorkShop.init [1]) [10, 20, 10, 30]).1.map Result.provenance =
      [Provenance.New, Provenance.New, Provenance.Overflow, Provenance.New] := by
  decide

/-- C10: with one tier of capacity 1, processing 1, 2 and then the reserved
sentinel value 2^63 - 1 (never passed in before) yields New, New, Overflow:
the lookup matches a sentinel entry that the cascade itself deposited in
the overflow store. -/
theorem claim_c10 :
    (runItems (WorkShop.init [1]) [1, 2, 9223372036854775807]).1.map Result.provenance =
      [Provenance.New, Provenance.New, Provenance.Overflow] := by
  decide

/-- C3, as the code behaves: with no tiers configured, processing 5, 6, 5
yields New, New, New — the third call does not find item 5 anywhere,
contrary to the claim that it returns Overflow.  Indeed after processing
5, 6 the item 5 is absent from every store: the zero-tier drain pushed the
sentinel outside and dropped the item. -/
theorem claim_c3_code_behavior :
    (runItems (WorkShop.init []) [5, 6, 5]).1.map Result.provenance =
      [Provenance.New, Provenance.New, Provenance.New] ∧
    (5 : Item) ∉ (runItems (WorkShop.init []) [5, 6]).2.mOutside.mStorage ∧
    (5 : Item) ∉ (runItems (WorkShop.init []) [5, 6]).2.mWorkbench.mStorage ∧
    (runItems (WorkShop.init []) [5, 6]).2.mCabinets = [] := by
  decide

/-- C2, as the code behaves: the outside cabinet the workshop builds has
capacity 65535 (the int64 sentinel size narrowed to the uint16_t field),
and an outside cabinet of that capacity holding 65535 entries evicts its
back entry (here the entry 9) on the next insert instead of keeping every
entry. -/
theorem claim_c2_code_behavior (l : List Item) (h : l.length = 65534) :
    (WorkShop.init []).mOutside.mSize = 65535 ∧
    (Cabinet.addItem ⟨65535, l ++ [9]⟩ 7).1 = 9 ∧
    (Cabinet.addItem ⟨65535, l ++ [9]⟩ 7).2.mStorage = 7 :: l := by
  refine ⟨rfl, ?_, ?_⟩
  · simp [Cabinet.addItem, Cabinet.hasSpace, h]
  · simp [Cabinet.addItem, Cabinet.hasSpace, h]

/-- Witness for C2: a concrete overflow storage of 65535 entries from which
the insert of 7 evicts the back entry 9. -/
theorem claim_c2_code_behavior_witness :
    (List.replicate 65534 (8 : Item)).length = 65534 ∧
    (Cabinet.addItem ⟨65535, List.replicate 65534 (8 : Item) ++ [9]⟩ 7).1 = 9 := by
  have h : (List.replicate 65534 (8 : Item)).length = 65534 := by
    rw [List.length_replicate]
  exact ⟨h, (claim_c2_code_behavior (List.replicate 65534 (8 : Item)) h).2.1⟩

/-- C9: a cabinet created with capacity between 1 and 65535 never exceeds
its capacity under any sequence of insert, remove-found and remove-oldest
operations. -/
theorem claim_c9 (size : Int) (h1 : 1 ≤ size) (h2 : size < 65536)
    (ops : List CabOp) :
    (applyOps (Cabinet.init size) ops).mStorage.length ≤ (Cabinet.init size).mSize := by
  have hmod : size % 65536 = size := Int.emod_eq_of_lt (by omega) h2
  have hcap : 1 ≤ (Cabinet.init size).mSize := by
    simp only [Cabinet.init, hmod]
    omega
  exact (applyOps_length ops (Cabinet.init size) hcap (by simp [Cabinet.init])).2

/-- Witness for C9: a capacity-1 cabinet stays within capacity under a
concrete operation sequence that overfills it. -/
theorem claim_c9_witness :
    (1 : Int) ≤ 1 ∧ (1 : Int) < 65536 ∧
    (applyOps (Cabinet.init 1) [CabOp.insert 3, CabOp.insert 4, CabOp.insert 5,
      CabOp.removeOldest, CabOp.insert 6]).mStorage.length ≤ (Cabinet.init 1).mSize :=
  ⟨by norm_num, by norm_num,
    claim_c9 1 (by norm_num) (by norm_num)
      [CabOp.insert 3, CabOp.insert 4, CabOp.insert 5, CabOp.removeOldest, CabOp.insert 6]⟩

/-- C8: addItem on a cabinet with space pushes the item at the front and
reports no eviction; addItem on a full cabinet pops and reports exactly the
back (least recently inserted) entry and pushes the item at the front; in
particular a capacity-1024 cabinet filled with 1024 items evicts exactly
the first-inserted item of that batch when a further item is added. -/
theorem claim_c8 (c : Cabinet) (item : Item) (L : List Item) (hL : L.length = 1024) :
    (c.hasSpace = true →
      (c.addItem item).1 = kSentinelItem ∧ (c.addItem item).2.mStorage = item :: c.mStorage) ∧
    (c.hasSpace = false →
      (c.addItem item).1 = c.mStorage.getLastD kSentinelItem ∧
        (c.addItem item).2.mStorage = item :: c.mStorage.dropLast) ∧
    ((insertAll (Cabinet.init 1024) L).addItem item).1 = L.headD kSentinelItem := by
  refine ⟨?_, ?_, ?_⟩
  · intro hsp
    constructor <;> simp [Cabinet.addItem, hsp]
  · intro hsp
    constructor <;> simp [Cabinet.addItem, hsp]
  · have hinit : (Cabinet.init 1024) = ⟨1024, []⟩ := rfl
    obtain ⟨hsz, hst⟩ := insertAll_storage L (Cabinet.init 1024) (by simp [hinit, hL])
    have hlen2 : (insertAll (Cabinet.init 1024) L).mStorage.length = 1024 := by
      rw [hst]
      simp [hL, hinit]
    have hsz1024 : (insertAll (Cabinet.init 1024) L).mSize = 1024 := by
      rw [hsz, hinit]
    have hfull : (insertAll (Cabinet.init 1024) L).hasSpace = false := by
      simp [Cabinet.hasSpace, hlen2, hsz1024]
    rw [Cabinet.addItem, hfull]
    simp only [Bool.false_eq_true, if_false]
    rw [hst, hinit]
    simp only [List.append_nil]
    rw [getLastD_reverse]

/-- Witness for C8: a concrete cabinet with space, and a concrete batch of
1024 items whose first entry 3 is evicted by the 1025th insert. -/
theorem claim_c8_witness :
    (List.replicate 1024 (3 : Item)).length = 1024 ∧
    ((insertAll (Cabinet.init 1024) (List.replicate 1024 (3 : Item))).addItem 7).1 =
      (List.replicate 1024 (3 : Item)).headD kSentinelItem := by
  have h : (List.replicate 1024 (3 : Item)).length = 1024 := by
    rw [List.length_replicate]
  exact ⟨h, (claim_c8 ⟨2, [5]⟩ 7 (List.replicate 1024 (3 : Item)) h).2.2⟩

/-! Lemmas about where items can and cannot be after the cascade. -/

/-- addItem keeps the capacity field unchanged. -/
theorem addItem_mSize (c : Cabinet) (i : Item) : (c.addItem i).2.mSize = c.mSize := by
  rw [Cabinet.addItem]
  split <;> rfl

/-- addItem always leaves the inserted item at the front of the storage. -/
theorem addItem_head (c : Cabinet) (i : Item) :
    (c.addItem i).2.mStorage.head? = some i := by
  rw [Cabinet.addItem]
  split <;> rfl

/-- addItem inserts the given item on top of a sublist of the old storage. -/
theorem addItem_storage (c : Cabinet) (i : Item) :
    (c.addItem i).2.mStorage = i :: c.mStorage ∨
      (c.addItem i).2.mStorage = i :: c.mStorage.dropLast := by
  rw [Cabinet.addItem]
  split
  · exact Or.inl rfl
  · exact Or.inr rfl

/-- The value addItem reports is the sentinel or an entry of the old
storage. -/
theorem addItem_fst (c : Cabinet) (i : Item) :
    (c.addItem i).1 = kSentinelItem ∨ (c.addItem i).1 ∈ c.mStorage := by
  rw [Cabinet.addItem]
  split
  · exact Or.inl rfl
  · cases hst : c.mStorage with
    | nil => exact Or.inl (by simp [hst])
    | cons a l =>
      refine Or.inr ?_
      simp only
      rw [List.getLastD_eq_getLast? , List.getLast?_eq_getLast _ (by simp [hst])]
      simp only [Option.getD_some]
      exact List.getLast_mem _

/-- A value absent from the storage and different from the inserted item is
absent after addItem. -/
theorem addItem_not_mem (c : Cabinet) (i x : Item) (hx : x ∉ c.mStorage)
    (hxi : x ≠ i) : x ∉ (c.addItem i).2.mStorage := by
  rcases addItem_storage c i with h | h <;> rw [h]
  · simp only [List.mem_cons, not_or]
    exact ⟨hxi, hx⟩
  · simp only [List.mem_cons, not_or]
    exact ⟨hxi, fun hmem => hx (List.mem_of_mem_dropLast hmem)⟩

/-- The cascade loop visits every cabinet slot: the resulting list has the
same length. -/
theorem cascadeLoop_length :
    ∀ (cabs : List Cabinet) (item extra : Item),
      (cascadeLoop cabs item extra).1.length = cabs.length := by
  intro cabs
  induction cabs with
  | nil => intro item extra; rfl
  | cons c rest ih =>
    intro item extra
    simp only [cascadeLoop]
    split
    · simp only [List.length_cons, ih]
    · simp only [List.length_cons]

/-- The item variable of the cascade loop never becomes the sentinel if it
did not start as the sentinel: it is only ever overwritten by values the
loop checked against the sentinel. -/
theorem cascadeLoop_item_ne :
    ∀ (cabs : List Cabinet) (item extra : Item), item ≠ kSentinelItem →
      (cascadeLoop cabs item extra).2.1 ≠ kSentinelItem := by
  intro cabs
  induction cabs with
  | nil => intro item extra h; exact h
  | cons c rest ih =>
    intro item extra h
    simp only [cascadeLoop]
    split
    · exact ih _ _ (by assumption)
    · exact h

/-- A value different from the sentinel, from the carried item, from the
incoming extra value, and absent from every cabinet, is absent from every
cabinet after the cascade loop and differs from both loop variables at the
end. -/
theorem cascadeLoop_free :
    ∀ (cabs : List Cabinet) (item extra x : Item),
      x ≠ kSentinelItem → x ≠ item → x ≠ extra → (∀ c ∈ cabs, x ∉ c.mStorage) →
      (∀ c ∈ (cascadeLoop cabs item extra).1, x ∉ c.mStorage) ∧
        (cascadeLoop cabs item extra).2.1 ≠ x ∧ (cascadeLoop cabs item extra).2.2 ≠ x := by
  intro cabs
  induction cabs with
  | nil =>
    intro item extra x _ hxi hxe hfree
    exact ⟨hfree, Ne.symm hxi, Ne.symm hxe⟩
  | cons c rest ih =>
    intro item extra x hxS hxi hxe hfree
    have hcmem : x ∉ c.mStorage := hfree c (List.mem_cons_self c rest)
    have hrest : ∀ d ∈ rest, x ∉ d.mStorage := fun d hd => hfree d (List.mem_cons_of_mem c hd)
    have hp1 : (c.addItem item).1 ≠ x := by
      rcases addItem_fst c item with h | h
      · rw [h]; exact Ne.symm hxS
      · exact fun heq => hcmem (heq ▸ h)
    have hp2 : x ∉ (c.addItem item).2.mStorage := addItem_not_mem c item x hcmem hxi
    simp only [cascadeLoop]
    split
    · obtain ⟨h1, h2, h3⟩ :=
        ih (c.addItem item).1 (c.addItem item).1 x hxS (Ne.symm hp1) (Ne.symm hp1) hrest
      refine ⟨?_, h2, h3⟩
      intro d hd
      rcases List.mem_cons.mp hd with hd | hd
      · exact hd ▸ hp2
      · exact h1 d hd
    · refine ⟨?_, Ne.symm hxi, hp1⟩
      intro d hd
      rcases List.mem_cons.mp hd with hd | hd
      · exact hd ▸ hp2
      · exact hrest d hd

/-- C4: whenever the drained workbench item (a non-sentinel value) cascades
into a tier that absorbs it — the loop's extraItem variable ends as the
sentinel while at least one tier exists — putInCabinet additionally pushes
the sentinel value into the outside store, leaving the sentinel as the
newest outside entry. -/
theorem claim_c4 (w : WorkShop) (item : Item)
    (h1 : item ≠ kSentinelItem) (_hcabs : w.mCabinets ≠ [])
    (h3 : (cascadeLoop w.mCabinets item kSentinelItem).2.2 = kSentinelItem) :
    (w.putInCabinet item).mOutside = (w.mOutside.addItem kSentinelItem).2 ∧
    (w.putInCabinet item).mOutside.mStorage.head? = some kSentinelItem := by
  have hne : (cascadeLoop w.mCabinets item kSentinelItem).2.1 ≠ kSentinelItem :=
    cascadeLoop_item_ne w.mCabinets item kSentinelItem h1
  have hout : (w.putInCabinet item).mOutside =
      (w.mOutside.addItem (cascadeLoop w.mCabinets item kSentinelItem).2.2).2 := by
    rw [WorkShop.putInCabinet]
    simp only [hne, ne_eq, not_false_iff, if_true]
  rw [hout, h3]
  exact ⟨rfl, addItem_head w.mOutside kSentinelItem⟩

/-- Witness for C4: the workshop with one empty tier of capacity 1 absorbs
the drained item 3, and the sentinel lands in front of the outside store. -/
theorem claim_c4_witness :
    (3 : Item) ≠ kSentinelItem ∧
    (WorkShop.init [1]).mCabinets ≠ [] ∧
    (cascadeLoop (WorkShop.init [1]).mCabinets 3 kSentinelItem).2.2 = kSentinelItem ∧
    ((WorkShop.init [1]).putInCabinet 3).mOutside.mStorage.head? = some kSentinelItem :=
  ⟨by decide, by decide, by decide,
    (claim_c4 (WorkShop.init [1]) 3 (by decide) (by decide) (by decide)).2⟩

/-- putInCabinet keeps a value out of every store it was absent from,
provided the value is neither the sentinel nor the item being placed. -/
theorem putInCabinet_free (w : WorkShop) (item x : Item)
    (hxS : x ≠ kSentinelItem) (hxi : x ≠ item)
    (ho : x ∉ w.mOutside.mStorage) (hc : ∀ c ∈ w.mCabinets, x ∉ c.mStorage) :
    x ∉ (w.putInCabinet item).mOutside.mStorage ∧
      (∀ c ∈ (w.putInCabinet item).mCabinets, x ∉ c.mStorage) ∧
      (w.putInCabinet item).mWorkbench = w.mWorkbench := by
  obtain ⟨h1, h2, h3⟩ := cascadeLoop_free w.mCabinets item kSentinelItem x hxS hxi hxS hc
  rw [WorkShop.putInCabinet]
  split
  · exact ⟨addItem_not_mem w.mOutside _ x ho (Ne.symm h3), h1, rfl⟩
  · exact ⟨ho, h1, rfl⟩

/-- putInCabinet keeps the number of cabinets. -/
theorem putInCabinet_length (w : WorkShop) (item : Item) :
    (w.putInCabinet item).mCabinets.length = w.mCabinets.length := by
  rw [WorkShop.putInCabinet]
  split <;> exact cascadeLoop_length w.mCabinets item kSentinelItem

/-- Draining the workbench keeps an absent non-sentinel value absent from
every store. -/
theorem drain_free (w : WorkShop) (x : Item) (hxS : x ≠ kSentinelItem)
    (hfree : itemFree x w) : itemFree x w.drainWorkbench := by
  obtain ⟨ho, hw, hc⟩ := hfree
  rw [WorkShop.drainWorkbench]
  split
  · exact ⟨ho, hw, hc⟩
  · rename_i hne
    have hnil : w.mWorkbench.mStorage ≠ [] := by
      intro h
      rw [h] at hne
      exact hne rfl
    have hback : w.mWorkbench.popBack.1 ∈ w.mWorkbench.mStorage := by
      rw [Cabinet.popBack]
      simp only
      rw [List.getLastD_eq_getLast?, List.getLast?_eq_getLast _ hnil]
      exact List.getLast_mem hnil
    have hxb : x ≠ w.mWorkbench.popBack.1 := fun h => hw (h ▸ hback)
    obtain ⟨r1, r2, r3⟩ :=
      putInCabinet_free ⟨w.mOutside, w.mWorkbench.popBack.2, w.mCabinets⟩
        w.mWorkbench.popBack.1 x hxS hxb ho hc
    refine ⟨r1, ?_, r2⟩
    rw [r3]
    simp only [Cabinet.popBack]
    exact fun h => hw (List.mem_of_mem_dropLast h)

/-- Draining preserves the cabinet count. -/
theorem drain_length (w : WorkShop) :
    w.drainWorkbench.mCabinets.length = w.mCabinets.length := by
  rw [WorkShop.drainWorkbench]
  split
  · rfl
  · exact putInCabinet_length ⟨w.mOutside, w.mWorkbench.popBack.2, w.mCabinets⟩ _

/-- Draining a capacity-1 workbench with at most one entry empties it. -/
theorem drain_workbench_empty (w : WorkShop) (hwb1 : w.mWorkbench.mSize = 1)
    (hwb2 : w.mWorkbench.mStorage.length ≤ 1) :
    w.drainWorkbench.mWorkbench = ⟨1, []⟩ := by
  rw [WorkShop.drainWorkbench]
  split
  · rename_i hempty
    have : w.mWorkbench.mStorage = [] := by
      cases h : w.mWorkbench.mStorage with
      | nil => rfl
      | cons a l => rw [h] at hempty; simp at hempty
    cases hcab : w.mWorkbench with
    | mk s st =>
      rw [hcab] at hwb1 this
      simp only at hwb1 this
      rw [hwb1, this]
  · have hwbpres : (WorkShop.putInCabinet
        ⟨w.mOutside, w.mWorkbench.popBack.2, w.mCabinets⟩
        w.mWorkbench.popBack.1).mWorkbench = w.mWorkbench.popBack.2 := by
      rw [WorkShop.putInCabinet]
      split <;> rfl
    rw [hwbpres, Cabinet.popBack]
    simp only
    have : w.mWorkbench.mStorage.dropLast = [] := by
      rw [← List.length_eq_zero, List.length_dropLast]
      omega
    rw [this, hwb1]

/-- If a value is in no cabinet, the cabinet search loop reports no match. -/
theorem findAndRemove_eq_none (cabs : List Cabinet) (x : Item)
    (h : ∀ c ∈ cabs, x ∉ c.mStorage) : findAndRemove cabs x = none := by
  induction cabs with
  | nil => rfl
  | cons c rest ih =>
    rw [findAndRemove]
    rw [if_neg (h c (List.mem_cons_self c rest))]
    rw [ih fun d hd => h d (List.mem_cons_of_mem c hd)]

/-- Processing a value absent from every store yields NEW, leaves the value
alone on the workbench, and keeps it out of the other stores. -/
theorem workOn_free (w : WorkShop) (x : Item) (hxS : x ≠ kSentinelItem)
    (hwb1 : w.mWorkbench.mSize = 1) (hwb2 : w.mWorkbench.mStorage.length ≤ 1)
    (hfree : itemFree x w) :
    (w.workOn x).1 = Result.ofStatus "NEW" ∧
    (w.workOn x).2.mWorkbench = ⟨1, [x]⟩ ∧
    x ∉ (w.workOn x).2.mOutside.mStorage ∧
    (∀ c ∈ (w.workOn x).2.mCabinets, x ∉ c.mStorage) ∧
    (w.workOn x).2.mCabinets.length = w.mCabinets.length := by
  obtain ⟨ho, hw, hc⟩ := drain_free w x hxS hfree
  have hwb : w.drainWorkbench.mWorkbench = ⟨1, []⟩ := drain_workbench_empty w hwb1 hwb2
  have hfr : findAndRemove w.drainWorkbench.mCabinets x = none :=
    findAndRemove_eq_none _ x hc
  rw [WorkShop.workOn]
  simp only [if_neg ho, hfr]
  refine ⟨?_, ?_, ?_, ?_, ?_⟩
  · trivial
  · rw [hwb]
    rfl
  · exact ho
  · exact hc
  · exact drain_length w

/-- Placing a value absent from every cabinet into a non-empty cabinet list
puts it into the first cabinet, keeps it out of the remaining cabinets and
out of the outside store, and leaves the workbench untouched. -/
theorem putInCabinet_head (w : WorkShop) (x : Item) (c : Cabinet) (rest : List Cabinet)
    (hcabs : w.mCabinets = c :: rest)
    (hxS : x ≠ kSentinelItem) (ho : x ∉ w.mOutside.mStorage)
    (hc : x ∉ c.mStorage) (hrest : ∀ d ∈ rest, x ∉ d.mStorage) :
    ∃ tl, (w.putInCabinet x).mCabinets = (c.addItem x).2 :: tl ∧
      x ∈ (c.addItem x).2.mStorage ∧
      (∀ d ∈ tl, x ∉ d.mStorage) ∧
      x ∉ (w.putInCabinet x).mOutside.mStorage ∧
      (w.putInCabinet x).mWorkbench = w.mWorkbench := by
  have hxmem : x ∈ (c.addItem x).2.mStorage := by
    rcases addItem_storage c x with h | h <;> rw [h] <;> exact List.mem_cons_self x _
  have hp1 : (c.addItem x).1 ≠ x := by
    rcases addItem_fst c x with h | h
    · rw [h]; exact Ne.symm hxS
    · exact fun heq => hc (heq ▸ h)
  rw [WorkShop.putInCabinet, hcabs]
  simp only [cascadeLoop]
  split
  · rename_i hevict
    obtain ⟨h1, h2, h3⟩ :=
      cascadeLoop_free rest (c.addItem x).1 (c.addItem x).1 x hxS (Ne.symm hp1)
        (Ne.symm hp1) hrest
    have hitem : (cascadeLoop rest (c.addItem x).1 (c.addItem x).1).2.1 ≠ kSentinelItem :=
      cascadeLoop_item_ne rest _ _ hevict
    refine ⟨(cascadeLoop rest (c.addItem x).1 (c.addItem x).1).1, ?_⟩
    simp only [hitem, ne_eq, not_false_iff, if_true]
    refine ⟨?_, hxmem, h1, ?_, ?_⟩
    · trivial
    · exact addItem_not_mem w.mOutside _ x ho (Ne.symm h3)
    · trivial
  · rename_i habs
    have hS : (c.addItem x).1 = kSentinelItem := not_ne_iff.mp habs
    refine ⟨rest, ?_⟩
    simp only [hS, hxS, ne_eq, not_false_iff, if_true]
    refine ⟨?_, hxmem, hrest, ?_, ?_⟩
    · trivial
    · exact addItem_not_mem w.mOutside kSentinelItem x ho hxS
    · trivial

/-- A workshop whose workbench holds exactly the sought non-sentinel value,
with that value absent from the outside store and from every cabinet of a
non-empty cabinet list, answers a workOn for the value with cabinet number
1: the drain moves the value into the first cabinet and the search finds it
there. -/
theorem workOn_found_tier1 (w1 : WorkShop) (x : Item) (c : Cabinet) (rest : List Cabinet)
    (hxS : x ≠ kSentinelItem) (hwb : w1.mWorkbench = ⟨1, [x]⟩)
    (ho : x ∉ w1.mOutside.mStorage) (hcabs : w1.mCabinets = c :: rest)
    (hc_c : x ∉ c.mStorage) (hrest : ∀ d ∈ rest, x ∉ d.mStorage) :
    (w1.workOn x).1.provenance = Provenance.Tier 1 := by
  have hdrain : w1.drainWorkbench =
      WorkShop.putInCabinet ⟨w1.mOutside, ⟨1, []⟩, w1.mCabinets⟩ x := by
    rw [WorkShop.drainWorkbench, hwb]
    rfl
  obtain ⟨tl, e1, e2, e3, e4, e5⟩ :=
    putInCabinet_head ⟨w1.mOutside, ⟨1, []⟩, w1.mCabinets⟩ x c rest hcabs hxS ho hc_c hrest
  have hfr : findAndRemove
      (WorkShop.putInCabinet ⟨w1.mOutside, ⟨1, []⟩, w1.mCabinets⟩ x).mCabinets x =
      some (0, (c.addItem x).2.popItem x :: tl) := by
    rw [e1, findAndRemove, if_pos e2]
  simp only [WorkShop.workOn]
  rw [hdrain]
  simp only [if_neg e4, hfr]
  rfl

/-- C6: processing a never-before-seen non-sentinel item twice in a row,
with at least one tier configured, yields New and then Tier 1: the second
call drains the item from the workbench into tier 1 and re-locates it
there. -/
theorem claim_c6 (w : WorkShop) (x : Item)
    (hxS : x ≠ kSentinelItem) (hcabs : w.mCabinets ≠ [])
    (hwb1 : w.mWorkbench.mSize = 1) (hwb2 : w.mWorkbench.mStorage.length ≤ 1)
    (hfree : itemFree x w) :
    (w.workOn x).1.provenance = Provenance.New ∧
    ((w.workOn x).2.workOn x).1.provenance = Provenance.Tier 1 := by
  obtain ⟨r1, r2, r3, r4, r5⟩ := workOn_free w x hxS hwb1 hwb2 hfree
  refine ⟨by rw [r1]; rfl, ?_⟩
  obtain ⟨c, rest, hcr⟩ : ∃ c rest, (w.workOn x).2.mCabinets = c :: rest := by
    cases h : (w.workOn x).2.mCabinets with
    | nil =>
      exfalso
      rw [h] at r5
      simp only [List.length_nil] at r5
      exact hcabs (List.length_eq_zero.mp r5.symm)
    | cons a l => exact ⟨a, l, rfl⟩
  have hc_c : x ∉ c.mStorage := r4 c (by rw [hcr]; exact List.mem_cons_self c rest)
  have hrest : ∀ d ∈ rest, x ∉ d.mStorage :=
    fun d hd => r4 d (by rw [hcr]; exact List.mem_cons_of_mem c hd)
  exact workOn_found_tier1 (w.workOn x).2 x c rest hxS r2 r3 hcr hc_c hrest

/-- Witness for C6: the fresh item 5 against the workshop with one tier of
capacity 1. -/
theorem claim_c6_witness :
    ((5 : Item) ≠ kSentinelItem ∧ (WorkShop.init [1]).mCabinets ≠ [] ∧
      (WorkShop.init [1]).mWorkbench.mSize = 1 ∧
      (WorkShop.init [1]).mWorkbench.mStorage.length ≤ 1 ∧
      itemFree 5 (WorkShop.init [1])) ∧
    ((WorkShop.init [1]).workOn 5).1.provenance = Provenance.New ∧
    (((WorkShop.init [1]).workOn 5).2.workOn 5).1.provenance = Provenance.Tier 1 :=
  ⟨⟨by decide, by decide, by decide, by decide, by decide, by decide, by decide⟩,
    claim_c6 (WorkShop.init [1]) 5 (by decide) (by decide) (by decide) (by decide)
      ⟨by decide, by decide, by decide⟩⟩

/-- Result.provenance of a cabinet-number result is the tier of that
number. -/
theorem provenance_ofNr (n : Int) : (Result.ofNr n).provenance = Provenance.Tier n := rfl

/-- The cabinet search loop agrees with the spec-side first-match index and
spec-side removal: either both report no match, or both report the same
0-based index and the updated storages are the spec-side update. -/
theorem findAndRemove_spec (x : Item) (cabs : List Cabinet) :
    (findAndRemove cabs x = none ∧
      (cabs.map Cabinet.mStorage).findIdx? (fun t => decide (x ∈ t)) = none) ∨
    (∃ j cabs', findAndRemove cabs x = some (j, cabs') ∧
      (cabs.map Cabinet.mStorage).findIdx? (fun t => decide (x ∈ t)) = some j ∧
      cabs'.map Cabinet.mStorage =
        (cabs.map Cabinet.mStorage).set j
          (((cabs.map Cabinet.mStorage).getD j []).erase x)) := by
  induction cabs with
  | nil => exact Or.inl ⟨rfl, List.findIdx?_nil⟩
  | cons c rest ih =>
    by_cases hm : x ∈ c.mStorage
    · refine Or.inr ⟨0, c.popItem x :: rest, ?_, ?_, ?_⟩
      · rw [findAndRemove, if_pos hm]
      · rw [List.map_cons, List.findIdx?_cons, if_pos (decide_eq_true hm)]
      · simp [Cabinet.popItem]
    · rcases ih with ⟨h1, h2⟩ | ⟨j, cabs', h1, h2, h3⟩
      · refine Or.inl ⟨?_, ?_⟩
        · rw [findAndRemove, if_neg hm, h1]
        · rw [List.map_cons, List.findIdx?_cons, if_neg (by simp [hm]),
            List.findIdx?_succ, h2]
          rfl
      · refine Or.inr ⟨j + 1, c :: cabs', ?_, ?_, ?_⟩
        · rw [findAndRemove, if_neg hm, h1]
        · rw [List.map_cons, List.findIdx?_cons, if_neg (by simp [hm]),
            List.findIdx?_succ, h2]
          rfl
        · simp only [List.map_cons, List.set_cons_succ, List.getD_cons_succ]
          rw [h3]

/-- C5: the result of workOn is exactly the spec-side lookup run on the
drained state (overflow first, then tiers in order, first match), the item
ends up alone on the workbench, and the stores after the call are the
spec-side removal of the item from where it was found. -/
theorem claim_c5 (w : WorkShop) (item : Item)
    (hwb1 : w.mWorkbench.mSize = 1) (hwb2 : w.mWorkbench.mStorage.length ≤ 1) :
    (w.workOn item).1.provenance =
      specLocate w.drainWorkbench.mOutside.mStorage
        (w.drainWorkbench.mCabinets.map Cabinet.mStorage) item ∧
    (w.workOn item).2.mWorkbench.mStorage = [item] ∧
    ((w.workOn item).2.mOutside.mStorage,
      (w.workOn item).2.mCabinets.map Cabinet.mStorage) =
      specRemove w.drainWorkbench.mOutside.mStorage
        (w.drainWorkbench.mCabinets.map Cabinet.mStorage) item := by
  have hwb : w.drainWorkbench.mWorkbench = ⟨1, []⟩ := drain_workbench_empty w hwb1 hwb2
  by_cases ho : item ∈ w.drainWorkbench.mOutside.mStorage
  · simp only [WorkShop.workOn, if_pos ho, specLocate, specRemove]
    refine ⟨?_, ?_, ?_⟩
    · trivial
    · rw [hwb]
      rfl
    · trivial
  · rcases findAndRemove_spec item w.drainWorkbench.mCabinets with ⟨h1, h2⟩ |
      ⟨j, cabs', h1, h2, h3⟩
    · simp only [WorkShop.workOn, if_neg ho, h1, specLocate, specRemove, h2]
      refine ⟨?_, ?_, ?_⟩
      · trivial
      · rw [hwb]
        rfl
      · trivial
    · simp only [WorkShop.workOn, if_neg ho, h1, specLocate, specRemove, h2]
      refine ⟨?_, ?_, ?_⟩
      · trivial
      · rw [hwb]
        rfl
      · simp only [Prod.mk.injEq]
        refine ⟨?_, ?_⟩
        · trivial
        · exact h3

/-- Witness for C5: the workshop with one capacity-1 tier, processing 5. -/
theorem claim_c5_witness :
    (WorkShop.init [1]).mWorkbench.mSize = 1 ∧
    (WorkShop.init [1]).mWorkbench.mStorage.length ≤ 1 ∧
    (((WorkShop.init [1]).workOn 5).1.provenance =
      specLocate (WorkShop.init [1]).drainWorkbench.mOutside.mStorage
        ((WorkShop.init [1]).drainWorkbench.mCabinets.map Cabinet.mStorage) 5 ∧
    ((WorkShop.init [1]).workOn 5).2.mWorkbench.mStorage = [5] ∧
    (((WorkShop.init [1]).workOn 5).2.mOutside.mStorage,
      ((WorkShop.init [1]).workOn 5).2.mCabinets.map Cabinet.mStorage) =
      specRemove (WorkShop.init [1]).drainWorkbench.mOutside.mStorage
        ((WorkShop.init [1]).drainWorkbench.mCabinets.map Cabinet.mStorage) 5) :=
  ⟨by decide, by decide, claim_c5 (WorkShop.init [1]) 5 (by decide) (by decide)⟩

/-! Lemmas for the long-run overflow-loss computation. -/

/-- descList unfolds one step. -/
theorem descList_succ (n : Nat) : descList (n + 1) = ((n : Int) + 1) :: descList n := rfl

/-- descList n has length n. -/
theorem descList_length (n : Nat) : (descList n).length = n := by
  induction n with
  | zero => rfl
  | succ m ih => simp [descList_succ, ih]

/-- Every entry of descList n lies between 1 and n. -/
theorem mem_descList (n : Nat) : ∀ x ∈ descList n, (1 : Int) ≤ x ∧ x ≤ (n : Int) := by
  induction n with
  | zero => intro x hx; cases hx
  | succ m ih =>
    intro x hx
    rw [descList_succ] at hx
    rcases List.mem_cons.mp hx with h | h
    · subst h
      constructor <;> omega
    · obtain ⟨h1, h2⟩ := ih x h
      constructor <;> omega

/-- Dropping the last entry of descList (n+1) shifts descList n up by one. -/
theorem descList_dropLast (n : Nat) :
    (descList (n + 1)).dropLast = (descList n).map (fun a => a + 1) := by
  induction n with
  | zero => rfl
  | succ m ih =>
    rw [descList_succ, descList_succ, List.dropLast_cons₂, ← descList_succ, ih,
      descList_succ, List.map_cons]
    have hc : ((m : Int) + 1) + 1 = ((m + 1 : Nat) : Int) + 1 := by push_cast; ring
    rw [hc]

/-- Running an appended item list runs the two parts in sequence. -/
theorem runItems_append (l1 l2 : List Item) :
    ∀ w : WorkShop, (runItems w (l1 ++ l2)).2 = (runItems (runItems w l1).2 l2).2 := by
  induction l1 with
  | nil => intro w; rfl
  | cons i l1 ih =>
    intro w
    simp only [List.cons_append, runItems]
    exact ih (w.workOn i).2

/-- natItems splits off its last item. -/
theorem natItems_succ (n : Nat) :
    natItems (n + 1) = natItems n ++ [((n : Int) + 1)] := by
  rw [natItems, List.range_succ, List.map_append, natItems]
  rfl

/-- Adding to a full capacity-1 cabinet evicts its entry. -/
theorem addItem_full_singleton (a b : Item) :
    Cabinet.addItem ⟨1, [a]⟩ b = (a, ⟨1, [b]⟩) := rfl

/-- The cascade over one full capacity-1 cabinet swaps the entries and
carries out the evicted one, provided the evicted entry is not the
sentinel. -/
theorem cascade_single (a b : Item) (h : a ≠ kSentinelItem) :
    cascadeLoop [⟨1, [a]⟩] b kSentinelItem = ([⟨1, [b]⟩], a, a) := by
  simp only [cascadeLoop, addItem_full_singleton]
  rw [if_pos h]

/-- putInCabinet on a workshop with one full capacity-1 tier swaps the tier
entry and pushes the evicted entry outside. -/
theorem putInCabinet_single (o wb : Cabinet) (a b : Item) (h : a ≠ kSentinelItem) :
    WorkShop.putInCabinet ⟨o, wb, [⟨1, [a]⟩]⟩ b = ⟨(o.addItem a).2, wb, [⟨1, [b]⟩]⟩ := by
  rw [WorkShop.putInCabinet]
  simp only [cascade_single a b h]
  rw [if_pos h]

/-- Draining a workshop holding x on the workbench, with one full
capacity-1 tier holding a, moves x into the tier and pushes a outside. -/
theorem drain_single (o : Cabinet) (x a : Item) (h : a ≠ kSentinelItem) :
    WorkShop.drainWorkbench ⟨o, ⟨1, [x]⟩, [⟨1, [a]⟩]⟩ =
      ⟨(o.addItem a).2, ⟨1, []⟩, [⟨1, [x]⟩]⟩ := by
  have hd : WorkShop.drainWorkbench ⟨o, ⟨1, [x]⟩, [⟨1, [a]⟩]⟩ =
      WorkShop.putInCabinet ⟨o, ⟨1, []⟩, [⟨1, [a]⟩]⟩ x := by
    rw [WorkShop.drainWorkbench]
    rfl
  rw [hd, putInCabinet_single o _ a x h]

/-- One full workOn step of the one-tier workshop on a fresh item y: the
workbench entry x moves to the tier, the tier entry a is added outside, and
y lands on the workbench with result NEW. -/
theorem workOn_step (o : Cabinet) (x a y : Item) (ha : a ≠ kSentinelItem)
    (h1 : y ∉ (o.addItem a).2.mStorage) (h2 : y ≠ x) :
    WorkShop.workOn ⟨o, ⟨1, [x]⟩, [⟨1, [a]⟩]⟩ y =
      (Result.ofStatus "NEW", ⟨(o.addItem a).2, ⟨1, [y]⟩, [⟨1, [x]⟩]⟩) := by
  have hfr : findAndRemove [(⟨1, [x]⟩ : Cabinet)] y = none := by
    rw [findAndRemove, if_neg (by simp [h2]), findAndRemove]
  simp only [WorkShop.workOn, drain_single o x a ha]
  rw [if_neg h1]
  simp only [hfr]
  rfl

/-- kSentinelItem as an integer literal. -/
theorem kSentinelItem_eq : kSentinelItem = (9223372036854775807 : Int) := rfl

/-- Running a single item is one workOn step. -/
theorem runItems_single (w : WorkShop) (y : Int) :
    (runItems w [y]).2 = (w.workOn y).2 := rfl

/-- Pushing the evicted tier entry m + 1 onto an outside store holding
descList m then the sentinel, while space remains, yields descList (m+1)
then the sentinel. -/
theorem outside_push (m : Nat) (hm : m ≤ 65533) :
    (Cabinet.addItem ⟨65535, descList m ++ [kSentinelItem]⟩ ((m : Int) + 1)).2 =
      ⟨65535, descList (m + 1) ++ [kSentinelItem]⟩ := by
  have hsp : (⟨65535, descList m ++ [kSentinelItem]⟩ : Cabinet).hasSpace = true := by
    simp only [Cabinet.hasSpace, List.length_append, descList_length, List.length_cons,
      List.length_nil, decide_eq_true_eq]
    omega
  rw [Cabinet.addItem, hsp]
  simp only [if_true]
  rw [descList_succ]
  rfl

/-- The state reached from the one-tier workshop after processing the items
1, ..., m + 2 is exactly midState m, for every m up to 65534 (while the
outside store still has room). -/
theorem runState_mid : ∀ m : Nat, m ≤ 65534 →
    (runItems (WorkShop.init [1]) (natItems (m + 2))).2 = midState m := by
  intro m
  induction m with
  | zero =>
    intro _
    decide
  | succ k ih =>
    intro hk
    have hk' : k ≤ 65533 := by omega
    show (runItems (WorkShop.init [1]) (natItems (k + 2 + 1))).2 = midState (k + 1)
    rw [natItems_succ, runItems_append, ih (by omega)]
    have hy : ((k + 2 : Nat) : Int) + 1 = (k : Int) + 3 := by push_cast; ring
    rw [hy, runItems_single]
    have ha : (k : Int) + 1 ≠ kSentinelItem := by rw [kSentinelItem_eq]; omega
    have haddm := outside_push k hk'
    have h1 : (k : Int) + 3 ∉
        ((⟨65535, descList k ++ [kSentinelItem]⟩ : Cabinet).addItem ((k : Int) + 1)).2.mStorage := by
      rw [haddm]
      intro hmem
      rcases List.mem_append.mp hmem with h | h
      · have := (mem_descList (k + 1) _ h).2
        omega
      · rw [List.mem_singleton, kSentinelItem_eq] at h
        omega
    have h2 : (k : Int) + 3 ≠ (k : Int) + 2 := by omega
    simp only [midState]
    rw [workOn_step ⟨65535, descList k ++ [kSentinelItem]⟩ ((k : Int) + 2) ((k : Int) + 1)
      ((k : Int) + 3) ha h1 h2]
    rw [haddm]
    have hc1 : ((k + 1 : Nat) : Int) + 2 = (k : Int) + 3 := by push_cast; ring
    have hc2 : ((k + 1 : Nat) : Int) + 1 = (k : Int) + 2 := by push_cast; ring
    rw [hc1, hc2]

/-- descList 65535 unfolded once, with numerals normalized. -/
theorem descList_65535_eq : descList 65535 = (65535 : Int) :: descList 65534 := by
  have h := descList_succ 65534
  norm_num at h
  exact h

/-- After processing 1, ..., 65537 the outside store is full with
descList 65535 (the sentinel entry has been evicted and discarded). -/
theorem runState_65537 :
    (runItems (WorkShop.init [1]) (natItems 65537)).2 =
      ⟨⟨65535, descList 65535⟩, ⟨1, [65537]⟩, [⟨1, [65536]⟩]⟩ := by
  have e1 : (runItems (WorkShop.init [1]) (natItems 65536)).2 = midState 65534 := by
    rw [show (65536 : Nat) = 65534 + 2 by norm_num]
    exact runState_mid 65534 (by norm_num)
  have e2 := natItems_succ 65536
  norm_num at e2
  rw [e2, runItems_append, e1, runItems_single]
  simp only [midState]
  have hx : ((65534 : Nat) : Int) + 2 = 65536 := by norm_num
  have hz : ((65534 : Nat) : Int) + 1 = 65535 := by norm_num
  rw [hx, hz]
  have ha : (65535 : Int) ≠ kSentinelItem := by rw [kSentinelItem_eq]; norm_num
  have hlen : ((descList 65534 ++ [kSentinelItem]).length) = 65535 := by
    rw [List.length_append, descList_length]
    rfl
  have hfull : (⟨65535, descList 65534 ++ [kSentinelItem]⟩ : Cabinet).hasSpace = false := by
    simp only [Cabinet.hasSpace, hlen]
    rfl
  have haddm : ((⟨65535, descList 65534 ++ [kSentinelItem]⟩ : Cabinet).addItem 65535).2 =
      ⟨65535, descList 65535⟩ := by
    rw [Cabinet.addItem, hfull]
    simp only [Bool.false_eq_true, if_false]
    rw [List.dropLast_concat, descList_65535_eq]
  have h1 : (65537 : Int) ∉
      ((⟨65535, descList 65534 ++ [kSentinelItem]⟩ : Cabinet).addItem 65535).2.mStorage := by
    rw [haddm]
    intro hmem
    have := (mem_descList 65535 _ hmem).2
    omega
  have h2 : (65537 : Int) ≠ 65536 := by norm_num
  rw [workOn_step ⟨65535, descList 65534 ++ [kSentinelItem]⟩ 65536 65535 65537 ha h1 h2]
  rw [haddm]

/-- After processing 1, ..., 65538 the outside store has evicted and
discarded the item 1: the final outside storage is 65536 on top of
descList 65535 without its last entry. -/
theorem runState_65538 :
    (runItems (WorkShop.init [1]) (natItems 65538)).2 =
      ⟨⟨65535, (65536 : Int) :: (descList 65535).dropLast⟩, ⟨1, [65538]⟩, [⟨1, [65537]⟩]⟩ := by
  have e2 := natItems_succ 65537
  norm_num at e2
  rw [e2, runItems_append, runState_65537, runItems_single]
  have ha : (65536 : Int) ≠ kSentinelItem := by rw [kSentinelItem_eq]; norm_num
  have hfull : (⟨65535, descList 65535⟩ : Cabinet).hasSpace = false := by
    simp only [Cabinet.hasSpace, descList_length]
    rfl
  have haddm : ((⟨65535, descList 65535⟩ : Cabinet).addItem 65536).2 =
      ⟨65535, (65536 : Int) :: (descList 65535).dropLast⟩ := by
    rw [Cabinet.addItem, hfull]
    simp only [Bool.false_eq_true, if_false]
  have h1 : (65538 : Int) ∉
      ((⟨65535, descList 65535⟩ : Cabinet).addItem 65536).2.mStorage := by
    rw [haddm]
    intro hmem
    rcases List.mem_cons.mp hmem with h | h
    · norm_num at h
    · have := (mem_descList 65535 _ (List.mem_of_mem_dropLast h)).2
      omega
  have h2 : (65538 : Int) ≠ 65537 := by norm_num
  rw [workOn_step ⟨65535, descList 65535⟩ 65537 65536 65538 ha h1 h2]
  rw [haddm]

/-- C1, as the code behaves: for the valid input sequence 1, ..., 65538
(distinct items, none the sentinel) on the one-tier configuration, the item
1 — which was passed in — resides in none of the stores after the run: the
outside store silently evicted it, so the conservation invariant fails even
though the tier list is non-empty (not the zero-tier edge case the claim
excepts). -/
theorem claim_c1_code_behavior :
    (1 : Int) ∈ natItems 65538 ∧
    (natItems 65538).Nodup ∧
    kSentinelItem ∉ natItems 65538 ∧
    itemFree 1 (runItems (WorkShop.init [1]) (natItems 65538)).2 := by
  refine ⟨?_, ?_, ?_, ?_⟩
  · rw [natItems]
    exact List.mem_map.mpr ⟨0, List.mem_range.mpr (by norm_num), by norm_num⟩
  · rw [natItems]
    refine List.Nodup.map ?_ (List.nodup_range 65538)
    intro a b hab
    simp only at hab
    omega
  · intro h
    rw [natItems] at h
    obtain ⟨k, hk, heq⟩ := List.mem_map.mp h
    rw [List.mem_range] at hk
    rw [kSentinelItem_eq] at heq
    have heq2 : (k : Int) + 1 = (9223372036854775807 : Int) := heq
    omega
  · rw [runState_65538]
    have hdl := descList_dropLast 65534
    norm_num at hdl
    refine ⟨?_, ?_, ?_⟩
    · intro hmem
      rcases List.mem_cons.mp hmem with h | h
      · norm_num at h
      · rw [hdl] at h
        obtain ⟨a, hmem2, haeq⟩ := List.mem_map.mp h
        have haeq2 : a + 1 = (1 : Int) := haeq
        have := (mem_descList 65534 a hmem2).1
        omega
    · decide
    · intro c hc
      rw [List.mem_singleton] at hc
      rw [hc]
      decide
